import Mathlib

/-!
Shallow embedding of the CodeFlow IDE prototype (a single React page in the
source repository).  The page keeps all state in plain values: a list of
workspaces ("projects"), each owning a file hierarchy (a flat list of nodes
with parent references), named document collections, scene objects and
simulated VCS metadata.  The embedding below translates the pure state
transformations performed by the page event handlers; `uid()` (a
`Math.random()`-based id generator) is modelled by passing the generated ids
explicitly, and the random ids attached to terminal log entries are dropped
(they are presentation-only).
-/

namespace CodeFlow

/-- Kind of a hierarchy node, from the `FileItem` type in the source. -/
inductive FileKind where
  | file
  | folder
deriving DecidableEq, Repr

/-- A node of the workspace file hierarchy (`FileItem` in the source):
identity, display name, kind, textual content and nullable parent reference. -/
structure FileItem where
  id : String
  name : String
  kind : FileKind
  content : String
  parentId : Option String
deriving DecidableEq, Repr

/-- `descendants` from the source computes the child ids of `i` by filtering
on `parentId` and recurses on each child.  The source recursion has no
structural termination measure (it diverges on cyclic parent references), so
the embedding takes an explicit fuel; `descendants` below instantiates the
fuel at `files.length`, which is proved sufficient on forest-shaped states
(`mem_descendants_iff`). -/
def descendantsAux (files : List FileItem) : Nat → String → List String
  | 0, _ => []
  | fuel + 1, i =>
      ((files.filter (fun f => f.parentId == some i)).map (fun f => f.id)).flatMap
        (fun k => k :: descendantsAux files fuel k)

/-- `descendants(files, id)` of the source, with fuel `files.length`. -/
def descendants (files : List FileItem) (i : String) : List String :=
  descendantsAux files files.length i

/-- The id set deleted by `deleteFile`: `new Set([id, ...descendants(files, id)])`. -/
def deleteTargets (files : List FileItem) (i : String) : List String :=
  i :: descendants files i

/-- The `files` update of `deleteFile` in the source:
`p.files.filter((f) => !toDelete.has(f.id))`. -/
def deleteFileFiles (files : List FileItem) (i : String) : List FileItem :=
  files.filter (fun f => !decide (f.id ∈ deleteTargets files i))

/-- The open-tab update of `deleteFile`: `t.filter((x) => !toDelete.has(x))`. -/
def deleteFileTabs (files : List FileItem) (i : String) (tabs : List String) : List String :=
  tabs.filter (fun x => !decide (x ∈ deleteTargets files i))

/-- The active-file update of `deleteFile`:
`if (toDelete.has(activeFileId)) setActiveFileId("")`. -/
def deleteFileActive (files : List FileItem) (i : String) (activeFileId : String) : String :=
  if activeFileId ∈ deleteTargets files i then "" else activeFileId

/-- `moveFile` in the source: picks the first folder other than the moved
node (`files.find((f) => f.kind === "folder" && f.id !== id)?.id ?? null`)
and sets the moved node's parent reference to it. -/
def moveFile (files : List FileItem) (i : String) : List FileItem :=
  let target : Option String :=
    (files.find? (fun f => f.kind == FileKind.folder && f.id != i)).map (fun f => f.id)
  files.map (fun f => if f.id = i then { f with parentId := target } else f)

/-- Node insertion.  All three insertion sites of the source ("New file",
"New folder", file upload) append a node with `parentId: null`:
`[...p.files, { id: uid(), name, kind, content, parentId: null }]`. -/
def insertFile (files : List FileItem) (newId name : String) (kind : FileKind)
    (content : String) : List FileItem :=
  files ++ [{ id := newId, name := name, kind := kind, content := content, parentId := none }]

/-- `renameFile` in the source (the core mutation; the surrounding
lookup/prompt guards leave the state unchanged when they fail, as does this
map when `i` is absent): `files.map((f) => (f.id === id ? { ...f, name: next } : f))`. -/
def renameFile (files : List FileItem) (i newName : String) : List FileItem :=
  files.map (fun f => if f.id = i then { f with name := newName } else f)

/-- The "Drop into folder" bulk-move handler: every selected node's parent
reference is set to `moveTarget`. -/
def dropIntoFolder (files : List FileItem) (selectedIds : List String)
    (moveTarget : Option String) : List FileItem :=
  files.map (fun f => if decide (f.id ∈ selectedIds) then { f with parentId := moveTarget } else f)

/-- Substring test, modelling JavaScript `String.prototype.includes` on the
character lists of the two strings. -/
def listIncludes (needle : List Char) : List Char → Bool
  | [] => needle.isEmpty
  | c :: t => needle.isPrefixOf (c :: t) || listIncludes needle t

/-- `f.name.toLowerCase().includes(search.toLowerCase())` from the source's
`filtered` list. -/
def searchFilter (files : List FileItem) (search : String) : List FileItem :=
  files.filter (fun f => listIncludes search.toLower.data f.name.toLower.data)

/-- `Number(f.kind === "file")` as used in the sort comparator. -/
def fileRank (f : FileItem) : Int :=
  if f.kind == FileKind.file then 1 else 0

/-- `a.name.localeCompare(b.name)`, modelled as code-point lexicographic
comparison returning the sign expected of a comparator. -/
def localeCmp (a b : String) : Int :=
  if a < b then -1 else if a = b then 0 else 1

/-- The sort comparator of `listTree`:
`Number(a.kind === "file") - Number(b.kind === "file") || a.name.localeCompare(b.name)`
(for numbers, JavaScript `x || y` is `x` when `x ≠ 0` and `y` otherwise). -/
def cmpFiles (a b : FileItem) : Int :=
  let d := fileRank a - fileRank b
  if d ≠ 0 then d else localeCmp a.name b.name

/-- The boolean "keep `a` before `b`" relation the stable sort uses. -/
def fileLe (a b : FileItem) : Bool :=
  decide (cmpFiles a b ≤ 0)

/-- The sibling group `listTree` emits at `parentId`: search-filtered files
with the given parent, sorted by the comparator (a stable sort, as required
of `Array.prototype.sort`). -/
def sortSibs (files : List FileItem) (search : String) (parentId : Option String) :
    List FileItem :=
  ((searchFilter files search).filter (fun f => f.parentId == parentId)).mergeSort fileLe

/-- An output row of `listTree`: the node spread together with a `label`. -/
structure TreeEntry extends FileItem where
  label : String
deriving DecidableEq, Repr

/-- The label `${"  ".repeat(depth)}${f.kind === "folder" ? "📁" : "📄"} ${f.name}`. -/
def labelOf (depth : Nat) (f : FileItem) : String :=
  String.join (List.replicate depth "  ")
    ++ (if f.kind == FileKind.folder then "📁" else "📄") ++ " " ++ f.name

/-- `listTree` of the source, with fuel for the recursion into folders (the
source recursion terminates exactly on forest-shaped states). -/
def listTreeAux (files : List FileItem) (search : String) :
    Nat → Option String → Nat → List TreeEntry
  | 0, _, _ => []
  | fuel + 1, parentId, depth =>
      (sortSibs files search parentId).flatMap (fun f =>
        { toFileItem := f, label := labelOf depth f } ::
          (if f.kind == FileKind.folder then
            listTreeAux files search fuel (some f.id) (depth + 1)
          else []))

/-- `listTree(parentId)` with the source's initial depth `0` and fuel
`files.length + 1` (sufficient on forests). -/
def listTree (files : List FileItem) (search : String) (parentId : Option String) :
    List TreeEntry :=
  listTreeAux files search (files.length + 1) parentId 0

/-- `project?.files.find((f) => f.id === activeFileId && f.kind === "file") ?? null`. -/
def activeFileLookup (files : List FileItem) (activeFileId : String) : Option FileItem :=
  files.find? (fun f => f.id == activeFileId && f.kind == FileKind.file)

/-- Terminal log levels (`LogLevel` in the source). -/
inductive LogLevel where
  | info
  | success
  | error
deriving DecidableEq, Repr

/-- A terminal log entry; the random `uid()` id the source attaches to each
entry is presentation-only and dropped here. -/
structure TerminalEntry where
  level : LogLevel
  message : String
deriving DecidableEq, Repr

/-- The five recognized terminal commands. -/
def terminalCommands : List String :=
  ["!run", "!fix code", "!list", "!clear", "!help"]

/-- `content.replaceAll(pattern, replacement)` on character lists:
left-to-right replacement of non-overlapping occurrences.  The fuel makes
the recursion structural; every step consumes at least one character, so
fuel `hay.length` is exact. -/
def replaceAllAux (pattern repl : List Char) : Nat → List Char → List Char
  | 0, hay => hay
  | _ + 1, [] => []
  | fuel + 1, c :: t =>
      if pattern ≠ [] ∧ pattern.isPrefixOf (c :: t) then
        repl ++ replaceAllAux pattern repl fuel ((c :: t).drop pattern.length)
      else
        c :: replaceAllAux pattern repl fuel t

/-- `s.replaceAll(pattern, repl)` for a non-empty pattern. -/
def replaceAll (s pattern repl : String) : String :=
  ⟨replaceAllAux pattern.data repl.data s.data.length s.data⟩

/-- `input.trim()`: strip leading and trailing whitespace. -/
def jsTrim (s : String) : String :=
  ⟨((s.data.dropWhile Char.isWhitespace).reverse.dropWhile Char.isWhitespace).reverse⟩

/-- `runTerminal` of the source: trims the input, echoes it, then dispatches
on the five commands; `!fix code` rewrites the active file, `!clear` resets
the log list, anything else logs "Unknown command".  Returns the resulting
log list and file list. -/
def runTerminal (input : String) (activeFileId : String) (files : List FileItem)
    (logs : List TerminalEntry) : List TerminalEntry × List FileItem :=
  let cmd := jsTrim input
  if cmd = "" then (logs, files)
  else
    let logs1 := logs ++ [⟨LogLevel.info, "> " ++ cmd⟩]
    if cmd = "!help" then
      (logs1 ++ [⟨LogLevel.success, "!run !fix code !list !clear !help"⟩], files)
    else if cmd = "!run" then
      (logs1 ++ [⟨LogLevel.success, "Preview executed."⟩], files)
    else if cmd = "!fix code" then
      match activeFileLookup files activeFileId with
      | none => (logs1 ++ [⟨LogLevel.error, "No active file."⟩], files)
      | some af =>
          (logs1 ++ [⟨LogLevel.success, "Applied quick fix: var -> const"⟩],
           files.map (fun f =>
             if f.id = af.id then { f with content := replaceAll f.content "var " "const " }
             else f))
    else if cmd = "!list" then
      (logs1 ++ [⟨LogLevel.info, String.intercalate ", " (files.map (fun f => f.name))⟩], files)
    else if cmd = "!clear" then ([], files)
    else (logs1 ++ [⟨LogLevel.error, "Unknown command"⟩], files)

/-- Untyped JavaScript values as they occur in collection records. -/
inductive JVal where
  | vStr (s : String)
  | vNum (n : Int)
  | vBool (b : Bool)
  | vNull
deriving DecidableEq, Repr

/-- A JavaScript object: ordered key/value bindings with unique keys. -/
abbrev JObj := List (String × JVal)

/-- Property read `o[k]` (objects built below keep at most one binding per key). -/
def getField (o : JObj) (k : String) : Option JVal :=
  (o.find? (fun p => p.1 == k)).map (fun p => p.2)

/-- Property assignment `o[k] = v`: an existing key keeps its position and is
overwritten, a new key is appended — JavaScript object-literal semantics. -/
def setKey : JObj → String → JVal → JObj
  | [], k, v => [(k, v)]
  | p :: rest, k, v => if p.1 = k then (k, v) :: rest else p :: setKey rest k v

/-- Object spread `{ ...base, ...data }`: the keys of `data` are assigned in
order into `base`. -/
def spreadInto (base : JObj) (data : JObj) : JObj :=
  data.foldl (fun acc p => setKey acc p.1 p.2) base

/-- JavaScript `??`: `data.name ?? "doc"` falls through on null/undefined. -/
def jsCoalesce : Option JVal → JVal → JVal
  | none, d => d
  | some JVal.vNull, d => d
  | some v, _ => v

/-- JavaScript `String(v)` on the modelled values. -/
def jsString : JVal → String
  | JVal.vStr s => s
  | JVal.vNum n => toString n
  | JVal.vBool b => if b then "true" else "false"
  | JVal.vNull => "null"

/-- The record literal built by `addDoc`:
`{ id: uid(), name: String(data.name ?? "doc"), ...data }` — note that the
trailing spread overwrites the `id` and `name` properties whenever `data`
carries those keys. -/
def mkDoc (newId : String) (data : JObj) : JObj :=
  spreadInto
    [("id", JVal.vStr newId),
     ("name", JVal.vStr (jsString (jsCoalesce (getField data "name") (JVal.vStr "doc"))))]
    data

/-- `d.id` compared against a string id (`d.id === id` is true exactly when
the `id` property holds that string). -/
def docId (d : JObj) : Option String :=
  match getField d "id" with
  | some (JVal.vStr s) => some s
  | _ => none

/-- The collection map of a workspace: `Record<string, CollectionDoc[]>`. -/
abbrev Collections := List (String × List JObj)

/-- `getDocs`: `p.collections[name] ?? []`. -/
def getDocs (cols : Collections) (name : String) : List JObj :=
  ((cols.find? (fun c => c.1 == name)).map (fun c => c.2)).getD []

/-- `{ ...p.collections, [name]: docs }`: replaces the binding in place, or
appends it when the collection did not exist yet. -/
def setCol : Collections → String → List JObj → Collections
  | [], name, docs => [(name, docs)]
  | c :: rest, name, docs =>
      if c.1 = name then (name, docs) :: rest else c :: setCol rest name docs

/-- `addDoc(data)` of the SDK, with the `uid()` result passed in as `newId`. -/
def addDoc (cols : Collections) (name newId : String) (data : JObj) : Collections :=
  setCol cols name (getDocs cols name ++ [mkDoc newId data])

/-- `updateDoc(id, data)` of the SDK:
`(p.collections[name] ?? []).map((d) => (d.id === id ? { ...d, ...data } : d))`. -/
def updateDoc (cols : Collections) (name i : String) (patch : JObj) : Collections :=
  setCol cols name
    ((getDocs cols name).map (fun d => if docId d == some i then spreadInto d patch else d))

/-- `deleteDoc(id)` of the SDK:
`(p.collections[name] ?? []).filter((d) => d.id !== id)`. -/
def deleteDoc (cols : Collections) (name i : String) : Collections :=
  setCol cols name ((getDocs cols name).filter (fun d => !(docId d == some i)))

/-- Session mode (`"guest" | "user"` in the source). -/
inductive AuthMode where
  | guest
  | user
deriving DecidableEq, Repr

/-- The fixed broadcast-channel name: `new BroadcastChannel("codeflow-collab")`. -/
def broadcastChannelName : String := "codeflow-collab"

/-- The object posted by the editor `onChange` handler:
`{ type: "sync", projectId: project.id, fileId: activeFile.id, content: v, actor: "remote" }`,
modelled as a key/value object so the wire shape is observable. -/
def syncMessage (projectId fileId content : String) : JObj :=
  [("type", JVal.vStr "sync"),
   ("projectId", JVal.vStr projectId),
   ("fileId", JVal.vStr fileId),
   ("content", JVal.vStr content),
   ("actor", JVal.vStr "remote")]

/-- The editor textarea `onChange` handler: without an active file nothing
happens; otherwise the file content is updated and, when the session is
authenticated (`auth === "user"`), the sync message is posted on the
broadcast channel (returned as the second component, `none` = no message). -/
def editorOnChange (auth : AuthMode) (projectId : String) (files : List FileItem)
    (activeFileId v : String) : List FileItem × Option JObj :=
  match activeFileLookup files activeFileId with
  | none => (files, none)
  | some af =>
      (files.map (fun f => if f.id = af.id then { f with content := v } else f),
       if auth = AuthMode.user then some (syncMessage projectId af.id v) else none)

/-- Project mode (`ProjectType = "2d" | "3d"`). -/
inductive ProjectType where
  | twoD
  | threeD
deriving DecidableEq, Repr

/-- A stored AI API key (`{ provider: string; key: string }`). -/
structure ApiKey where
  provider : String
  key : String
deriving DecidableEq, Repr

/-- Scene-object mesh kinds. -/
inductive MeshKind where
  | cube
  | sphere
  | plane
  | custom
deriving DecidableEq, Repr

/-- A 3D scene object (`SceneObject`); the numeric triples in the source are
integer literals, modelled as `Int` triples. -/
structure SceneObject where
  id : String
  name : String
  mesh : MeshKind
  position : Int × Int × Int
  rotation : Int × Int × Int
  scale : Int × Int × Int
  material : String
  rigidBody : Bool
deriving DecidableEq, Repr

/-- A simulated commit record (`VcsCommit`). -/
structure VcsCommit where
  id : String
  message : String
  branch : String
  createdAt : String
  fileCount : Nat
deriving DecidableEq, Repr

/-- Pull-request status. -/
inductive PrStatus where
  | opened
  | merged
  | closed
deriving DecidableEq, Repr

/-- A simulated pull request (`PullRequest`; `from`/`to` are renamed
`fromBranch`/`toBranch` because `from` is reserved here). -/
structure PullRequest where
  id : String
  title : String
  fromBranch : String
  toBranch : String
  status : PrStatus
deriving DecidableEq, Repr

/-- A configured remote (`{ name: string; url: string }`). -/
structure Remote where
  name : String
  url : String
deriving DecidableEq, Repr

/-- The simulated VCS state of a workspace. -/
structure Vcs where
  branches : List String
  commits : List VcsCommit
  pullRequests : List PullRequest
  remotes : List Remote
deriving DecidableEq, Repr

/-- A workspace (`Project` in the source). -/
structure Project where
  id : String
  name : String
  type : ProjectType
  files : List FileItem
  connected : List String
  collaborators : List String
  collections : Collections
  apiKeys : List ApiKey
  scene : List SceneObject
  vcs : Vcs
deriving DecidableEq, Repr

/-- `makeDefaultFiles()`; the seven `uid()` calls are modelled by the id
supply `g`. -/
def makeDefaultFiles (g : Nat → String) : List FileItem :=
  [{ id := g 0, name := "src", kind := FileKind.folder, content := "", parentId := none },
   { id := g 1, name := "CodeSpace.cs", kind := FileKind.file, content := "// Core scripts",
     parentId := some (g 0) },
   { id := g 2, name := "React Hooks.rh", kind := FileKind.file, content := "// Hooks registry",
     parentId := some (g 0) },
   { id := g 3, name := "Server Utilities.su", kind := FileKind.file,
     content := "// Server utilities", parentId := some (g 0) },
   { id := g 4, name := "index.html", kind := FileKind.file,
     content := "<h1>CodeFlow IDE v1</h1>", parentId := none },
   { id := g 5, name := "styles.css", kind := FileKind.file,
     content := "body\x7bfont-family:Inter,sans-serif;background:#111827;color:#e5e7eb\x7d",
     parentId := none },
   { id := g 6, name := "main.js", kind := FileKind.file,
     content := "console.log(\x27CodeFlow v1 loaded\x27)", parentId := none }]

/-- `makeProject(name, type)`; the `uid()` calls are modelled by the id
supply `g` (`g 0` the project id, `g 1`–`g 7` the default files, `g 8`/`g 9`
the two scene objects). -/
def makeProject (g : Nat → String) (name : String) (type : ProjectType) : Project :=
  { id := g 0
    name := name
    type := type
    files := makeDefaultFiles (fun n => g (n + 1))
    connected := []
    collaborators := []
    collections := [("3D Models", []), ("appData", [])]
    apiKeys := []
    scene :=
      [{ id := g 8, name := "Main Camera", mesh := MeshKind.custom, position := (0, 2, 6),
         rotation := (0, 0, 0), scale := (1, 1, 1), material := "default", rigidBody := false },
       { id := g 9, name := "Ground", mesh := MeshKind.plane, position := (0, 0, 0),
         rotation := (0, 0, 0), scale := (10, 1, 10), material := "matte", rigidBody := true }]
    vcs := { branches := ["main"], commits := [], pullRequests := [], remotes := [] } }

/-- `projects.find((p) => p.id === activeProjectId) ?? projects[0]`. -/
def activeProjectOf (projects : List Project) (activeId : String) : Option Project :=
  (projects.find? (fun p => p.id == activeId)).orElse (fun _ => projects.head?)

/-- The delete-workspace button handler: a silent no-op when a single
workspace exists, otherwise the active workspace is filtered out. -/
def deleteWorkspaceList (projects : List Project) (activeId : String) : List Project :=
  if projects.length = 1 then projects
  else
    match activeProjectOf projects activeId with
    | none => projects
    | some proj => projects.filter (fun p => !decide (p.id = proj.id))

/-- The startup load: `parsed.projects.length ? parsed.projects : [makeProject()]`. -/
def loadProjects (stored : List Project) (fresh : Project) : List Project :=
  if stored.length ≠ 0 then stored else [fresh]

/-! ### Spec-side notions: edges, chains, descendants and the forest invariant -/

/-- `b` is a direct child of `a`: some node in `files` has id `b` and parent
reference `a`. -/
def ChildOf (files : List FileItem) (a b : String) : Prop :=
  ∃ f ∈ files, f.id = b ∧ f.parentId = some a

instance (files : List FileItem) (a b : String) : Decidable (ChildOf files a b) :=
  List.decidableBEx _ files

/-- `chainFrom files a l` holds when `l` is a downward parent-chain starting
under `a`: each element is a child of its predecessor (with `a` preceding the
first). -/
def chainFrom (files : List FileItem) : String → List String → Prop
  | _, [] => True
  | a, b :: l => ChildOf files a b ∧ chainFrom files b l

/-- `b` is a strict descendant of `a` (transitive closure of `ChildOf`). -/
def Desc (files : List FileItem) (a b : String) : Prop :=
  ∃ l : List String, chainFrom files a (l ++ [b])

/-- The forest invariant: no node is its own strict descendant — i.e. no
node's parent chain contains the node itself. -/
def Forest (files : List FileItem) : Prop :=
  ∀ a : String, ¬ Desc files a a

/-- Concrete forest-shaped states used by the witnesses: a root folder `A`
containing a folder `B`. -/
def filesM : List FileItem :=
  [{ id := "A", name := "a", kind := FileKind.folder, content := "", parentId := none },
   { id := "B", name := "b", kind := FileKind.folder, content := "", parentId := some "A" }]

/-- The scenario state of the spec: folder `src` containing file `a.js`. -/
def filesD : List FileItem :=
  [{ id := "s", name := "src", kind := FileKind.folder, content := "", parentId := none },
   { id := "a", name := "a.js", kind := FileKind.file, content := "// a", parentId := some "s" }]

/-- A one-file state used by the editor/terminal witnesses. -/
def filesC : List FileItem :=
  [{ id := "F", name := "main.js", kind := FileKind.file, content := "var x = 1",
     parentId := none }]

/-- A concrete collection map with one record of id `"x"`. -/
def cols₃ : Collections := [("notes", [[("id", JVal.vStr "x")]])]

/-- A concrete collection map with one record of id `"x"` and a text field. -/
def cols₅ : Collections := [("notes", [[("id", JVal.vStr "x"), ("text", JVal.vStr "hi")]])]

/-- Two concrete workspaces with distinct ids, built through `makeProject`. -/
def projA : Project := makeProject (fun n => "a" ++ toString n) "A" ProjectType.twoD

def projB : Project := makeProject (fun n => "b" ++ toString n) "B" ProjectType.twoD

/-! ### Chains, descendants and the forest invariant -/

lemma childOf_iff_mem (files : List FileItem) (a x : String) :
    x ∈ (files.filter (fun f => f.parentId == some a)).map (fun f => f.id) ↔
      ChildOf files a x := by
  simp only [List.mem_map, List.mem_filter, beq_iff_eq, ChildOf]
  constructor
  · rintro ⟨f, ⟨hf, hp⟩, hid⟩
    exact ⟨f, hf, hid, hp⟩
  · rintro ⟨f, hf, hid, hp⟩
    exact ⟨f, ⟨hf, hp⟩, hid⟩

lemma chainFrom_append (files : List FileItem) (l₁ l₂ : List String) (a : String) :
    chainFrom files a (l₁ ++ l₂) ↔
      chainFrom files a l₁ ∧ chainFrom files (l₁.getLastD a) l₂ := by
  induction l₁ generalizing a with
  | nil => simp [chainFrom]
  | cons b t ih =>
      simp only [List.cons_append, chainFrom, List.getLastD_cons, List.append_eq, ih b,
        and_assoc]

lemma desc_of_child {files : List FileItem} {a b : String} (h : ChildOf files a b) :
    Desc files a b :=
  ⟨[], h, trivial⟩

lemma desc_cons {files : List FileItem} {a b c : String} (hab : ChildOf files a b)
    (hbc : Desc files b c) : Desc files a c := by
  obtain ⟨l, hl⟩ := hbc
  exact ⟨b :: l, hab, hl⟩

lemma desc_snoc {files : List FileItem} {a b c : String} (hab : Desc files a b)
    (hbc : ChildOf files b c) : Desc files a c := by
  obtain ⟨l, hl⟩ := hab
  refine ⟨l ++ [b], (chainFrom_append files (l ++ [b]) [c] a).mpr ⟨hl, ?_⟩⟩
  rw [List.getLastD_concat]
  exact ⟨hbc, trivial⟩

lemma desc_of_mem_chain {files : List FileItem} {a b : String} {l : List String}
    (h : chainFrom files a l) (hb : b ∈ l) : Desc files a b := by
  induction l generalizing a with
  | nil => cases hb
  | cons c t ih =>
      obtain ⟨hac, ht⟩ := h
      rcases List.mem_cons.mp hb with rfl | hbt
      · exact desc_of_child hac
      · exact desc_cons hac (ih ht hbt)

lemma chain_mem_ids {files : List FileItem} {a : String} {l : List String}
    (h : chainFrom files a l) : ∀ x ∈ l, x ∈ files.map (fun f => f.id) := by
  induction l generalizing a with
  | nil => intro x hx; cases hx
  | cons c t ih =>
      obtain ⟨hac, ht⟩ := h
      intro x hx
      rcases List.mem_cons.mp hx with rfl | hxt
      · obtain ⟨f, hf, hid, _⟩ := hac
        exact List.mem_map.mpr ⟨f, hf, hid⟩
      · exact ih ht x hxt

lemma forest_chain_nodup {files : List FileItem} (hF : Forest files) {a : String}
    {l : List String} (h : chainFrom files a l) : a ∉ l ∧ l.Nodup := by
  induction l generalizing a with
  | nil => exact ⟨List.not_mem_nil a, List.nodup_nil⟩
  | cons b t ih =>
      obtain ⟨hab, ht⟩ := h
      obtain ⟨hbt, hnd⟩ := ih ht
      have hanb : a ∉ b :: t := by
        intro ha
        rcases List.mem_cons.mp ha with rfl | hat
        · exact hF a (desc_of_child hab)
        · exact hF a (desc_cons hab (desc_of_mem_chain ht hat))
      have hbmem : b ∉ t := by
        intro hb
        exact hF b (desc_of_mem_chain ht hb)
      exact ⟨hanb, List.nodup_cons.mpr ⟨hbmem, hnd⟩⟩

lemma forest_chain_length {files : List FileItem} (hF : Forest files) {a : String}
    {l : List String} (h : chainFrom files a l) : l.length ≤ files.length := by
  have hnd := (forest_chain_nodup hF h).2
  have hsub : l ⊆ files.map (fun f => f.id) := fun x hx => chain_mem_ids h x hx
  have := (List.subperm_of_subset hnd hsub).length_le
  simpa using this

lemma descendantsAux_sound (files : List FileItem) :
    ∀ (fuel : Nat) (a b : String), b ∈ descendantsAux files fuel a → Desc files a b := by
  intro fuel
  induction fuel with
  | zero => intro a b h; cases h
  | succ n ih =>
      intro a b h
      rw [descendantsAux] at h
      obtain ⟨k, hk, hb⟩ := List.mem_flatMap.mp h
      have hck : ChildOf files a k := (childOf_iff_mem files a k).mp hk
      rcases List.mem_cons.mp hb with rfl | hrec
      · exact desc_of_child hck
      · exact desc_cons hck (ih k b hrec)

lemma descendantsAux_complete (files : List FileItem) :
    ∀ (l : List String) (a b : String) (fuel : Nat),
      chainFrom files a (l ++ [b]) → l.length + 1 ≤ fuel →
      b ∈ descendantsAux files fuel a := by
  intro l
  induction l with
  | nil =>
      intro a b fuel h hfuel
      obtain ⟨hab, -⟩ := h
      match fuel, hfuel with
      | m + 1, _ =>
          rw [descendantsAux]
          exact List.mem_flatMap.mpr
            ⟨b, (childOf_iff_mem files a b).mpr hab, List.mem_cons_self b _⟩
  | cons c t ih =>
      intro a b fuel h hfuel
      obtain ⟨hac, ht⟩ := h
      match fuel, hfuel with
      | m + 1, hfuel =>
          have hm : t.length + 1 ≤ m := by
            simpa [Nat.succ_le_succ_iff] using hfuel
          rw [descendantsAux]
          refine List.mem_flatMap.mpr ⟨c, (childOf_iff_mem files a c).mpr hac, ?_⟩
          exact List.mem_cons.mpr (Or.inr (ih c b m ht hm))

/-- On a forest the fuelled `descendants` computes exactly the strict
descendant relation. -/
lemma mem_descendants_iff {files : List FileItem} (hF : Forest files) (a b : String) :
    b ∈ descendants files a ↔ Desc files a b := by
  constructor
  · exact descendantsAux_sound files files.length a b
  · rintro ⟨l, hl⟩
    have hlen : (l ++ [b]).length ≤ files.length := forest_chain_length hF hl
    have : l.length + 1 ≤ files.length := by simpa using hlen
    exact descendantsAux_complete files l a b files.length hl this

/-- A ranking argument establishing the forest invariant: if every parent
reference strictly lowers a rank, no node is its own descendant. -/
lemma forest_of_rank (files : List FileItem) (rank : String → Nat)
    (h : ∀ f ∈ files, ∀ p, f.parentId = some p → rank p < rank f.id) :
    Forest files := by
  have aux : ∀ (l : List String) (a b : String), chainFrom files a (l ++ [b]) →
      rank a < rank b := by
    intro l
    induction l with
    | nil =>
        rintro a b ⟨⟨f, hf, rfl, hp⟩, -⟩
        exact h f hf a hp
    | cons c t ih =>
        rintro a b ⟨⟨f, hf, rfl, hp⟩, ht⟩
        exact lt_trans (h f hf a hp) (ih f.id b ht)
  rintro a ⟨l, hl⟩
  exact lt_irrefl (rank a) (aux l a a hl)

/-- States with identical child relations have identical chains. -/
lemma forest_of_childOf_iff {files₁ files₂ : List FileItem}
    (h : ∀ a b, ChildOf files₂ a b ↔ ChildOf files₁ a b) (hF : Forest files₁) :
    Forest files₂ := by
  have chains : ∀ (l : List String) (a : String),
      chainFrom files₂ a l → chainFrom files₁ a l := by
    intro l
    induction l with
    | nil => intro a _; trivial
    | cons b t ih =>
        rintro a ⟨hab, ht⟩
        exact ⟨(h a b).mp hab, ih b ht⟩
  rintro a ⟨l, hl⟩
  exact hF a ⟨l, chains (l ++ [a]) a hl⟩

lemma forest_filesM : Forest filesM := by
  refine forest_of_rank filesM (fun s => if s = "A" then 0 else 1) ?_
  intro f hf p hp
  simp only [filesM, List.mem_cons, List.not_mem_nil, or_false] at hf
  rcases hf with rfl | rfl
  · exact absurd hp (by simp)
  · have : p = "A" := by simpa using hp.symm
    subst this
    decide

lemma forest_filesD : Forest filesD := by
  refine forest_of_rank filesD (fun s => if s = "s" then 0 else 1) ?_
  intro f hf p hp
  simp only [filesD, List.mem_cons, List.not_mem_nil, or_false] at hf
  rcases hf with rfl | rfl
  · exact absurd hp (by simp)
  · have : p = "s" := by simpa using hp.symm
    subst this
    decide

/-- `ChildOf` transfer along a map that keeps ids and parent references. -/
lemma childOf_map_of_preserve (files : List FileItem) (g : FileItem → FileItem)
    (hg : ∀ f, (g f).id = f.id ∧ (g f).parentId = f.parentId) (a b : String) :
    ChildOf (files.map g) a b ↔ ChildOf files a b := by
  simp only [ChildOf, List.mem_map]
  constructor
  · rintro ⟨f, ⟨f₀, hf₀, rfl⟩, hid, hp⟩
    rw [(hg f₀).1] at hid
    rw [(hg f₀).2] at hp
    exact ⟨f₀, hf₀, hid, hp⟩
  · rintro ⟨f, hf, hid, hp⟩
    exact ⟨g f, ⟨f, hf, rfl⟩, (hg f).1.trans hid, (hg f).2.trans hp⟩

lemma childOf_insertFile (files : List FileItem) (newId name : String)
    (kind : FileKind) (content : String) (a b : String) :
    ChildOf (insertFile files newId name kind content) a b ↔ ChildOf files a b := by
  simp only [ChildOf, insertFile, List.mem_append, List.mem_singleton]
  constructor
  · rintro ⟨f, hf | rfl, hid, hp⟩
    · exact ⟨f, hf, hid, hp⟩
    · exact absurd hp (by simp)
  · rintro ⟨f, hf, hid, hp⟩
    exact ⟨f, Or.inl hf, hid, hp⟩

lemma childOf_renameFile (files : List FileItem) (i newName : String) (a b : String) :
    ChildOf (renameFile files i newName) a b ↔ ChildOf files a b := by
  refine childOf_map_of_preserve files _ (fun f => ?_) a b
  by_cases h : f.id = i <;> simp [h]

lemma moveFile_not_self (files : List FileItem) (i : String) :
    ∀ f ∈ moveFile files i, f.id = i → f.parentId ≠ some i := by
  intro f hf hid hp
  simp only [moveFile, List.mem_map] at hf
  obtain ⟨f₀, hf₀, rfl⟩ := hf
  by_cases h : f₀.id = i
  · rw [if_pos h] at hp
    simp only at hp
    obtain ⟨f₁, hfind, hid₁⟩ := Option.map_eq_some'.mp hp
    have hpred := List.find?_some hfind
    simp [hid₁] at hpred
  · rw [if_neg h] at hid
    exact h hid

/-- C1 (amended): starting from a forest, `insert` (all insertion sites
append a root node) and `rename` keep the state a forest, and `moveFile`
never sets the moved node's parent reference to the node itself — but it may
set it to a descendant, so `move` alone does not preserve the forest
invariant (see `c1_move_creates_cycle`). -/
theorem c1_insert_rename_forest (files : List FileItem) :
    (Forest files → ∀ newId name kind content,
        Forest (insertFile files newId name kind content))
  ∧ (Forest files → ∀ i newName, Forest (renameFile files i newName))
  ∧ (∀ i, ∀ f ∈ moveFile files i, f.id = i → f.parentId ≠ some i) := by
  refine ⟨fun hF newId name kind content => ?_, fun hF i newName => ?_,
    moveFile_not_self files⟩
  · exact forest_of_childOf_iff (childOf_insertFile files newId name kind content) hF
  · exact forest_of_childOf_iff (childOf_renameFile files i newName) hF

/-- C1 counterexample: from the forest state `filesM` (folder `B` inside
folder `A`), `moveFile "A"` re-parents `A` under its own descendant `B`,
producing a state whose parent chains contain a cycle — the claimed forest
invariant is not preserved by `move`. -/
theorem c1_move_creates_cycle :
    Forest filesM ∧ ¬ Forest (moveFile filesM "A") := by
  refine ⟨forest_filesM, fun h => h "A" ⟨["B"], ?_⟩⟩
  exact ⟨by decide, by decide, trivial⟩

/-- C1 witness: the amended statement applied at the concrete forest `filesM`. -/
theorem c1_witness :
    Forest filesM ∧
      (Forest (insertFile filesM "N" "n.js" FileKind.file "") ∧
        Forest (renameFile filesM "A" "rootA") ∧
        ∀ f ∈ moveFile filesM "A", f.id = "A" → f.parentId ≠ some "A") := by
  have h := c1_insert_rename_forest filesM
  exact ⟨forest_filesM, h.1 forest_filesM "N" "n.js" FileKind.file "",
    h.2.1 forest_filesM "A" "rootA", h.2.2 "A"⟩

lemma mem_deleteFileFiles (files : List FileItem) (i : String) (f : FileItem) :
    f ∈ deleteFileFiles files i ↔
      f ∈ files ∧ ¬(f.id = i ∨ f.id ∈ descendants files i) := by
  simp [deleteFileFiles, List.mem_filter, deleteTargets]

/-- C2: on a forest, `deleteFile` removes exactly the node and its strict
descendants; afterwards no remaining node's parent reference names the
deleted id or any previously-descendant id, and every node outside the
closure survives unchanged. -/
theorem c2_deleteFile_closure (files : List FileItem) (i : String) (hF : Forest files) :
    (∀ f ∈ deleteFileFiles files i,
        f ∈ files ∧ f.id ≠ i ∧ ¬ Desc files i f.id ∧
          ∀ d, (d = i ∨ Desc files i d) → f.parentId ≠ some d)
  ∧ (∀ f ∈ files, f.id ≠ i → ¬ Desc files i f.id → f ∈ deleteFileFiles files i) := by
  constructor
  · intro f hf
    rw [mem_deleteFileFiles] at hf
    obtain ⟨hmem, hnot⟩ := hf
    push_neg at hnot
    obtain ⟨hne, hnotdesc⟩ := hnot
    have hnd : ¬ Desc files i f.id := fun hd =>
      hnotdesc ((mem_descendants_iff hF i f.id).mpr hd)
    refine ⟨hmem, hne, hnd, ?_⟩
    rintro d (rfl | hd) hp
    · exact hnd (desc_of_child ⟨f, hmem, rfl, hp⟩)
    · exact hnd (desc_snoc hd ⟨f, hmem, rfl, hp⟩)
  · intro f hmem hne hnd
    rw [mem_deleteFileFiles]
    refine ⟨hmem, ?_⟩
    rintro (h | h)
    · exact hne h
    · exact hnd ((mem_descendants_iff hF i f.id).mp h)

/-- C2 witness: the spec's §8 scenario — folder `src` with file `a.js`
inside; deleting `src` empties the hierarchy. -/
theorem c2_witness :
    Forest filesD ∧
      ((∀ f ∈ deleteFileFiles filesD "s",
          f ∈ filesD ∧ f.id ≠ "s" ∧ ¬ Desc filesD "s" f.id ∧
            ∀ d, (d = "s" ∨ Desc filesD "s" d) → f.parentId ≠ some d)
        ∧ (∀ f ∈ filesD, f.id ≠ "s" → ¬ Desc filesD "s" f.id →
            f ∈ deleteFileFiles filesD "s"))
      ∧ deleteFileFiles filesD "s" = [] :=
  ⟨forest_filesD, c2_deleteFile_closure filesD "s" forest_filesD, by decide⟩

/-- C9: the context-menu delete also filters every targeted id out of the
open-tab list and clears the active file id exactly when it is targeted;
every id removed from the hierarchy is among the targeted ids. -/
theorem c9_deleteFile_tabs_active (files : List FileItem) (i : String)
    (tabs : List String) (activeFileId : String) :
    (∀ x ∈ deleteFileTabs files i tabs, x ∈ tabs ∧ x ∉ deleteTargets files i)
  ∧ (∀ x ∈ tabs, x ∉ deleteTargets files i → x ∈ deleteFileTabs files i tabs)
  ∧ (∀ f ∈ files, f ∉ deleteFileFiles files i → f.id ∈ deleteTargets files i)
  ∧ (activeFileId ∈ deleteTargets files i → deleteFileActive files i activeFileId = "")
  ∧ (activeFileId ∉ deleteTargets files i →
      deleteFileActive files i activeFileId = activeFileId) := by
  refine ⟨?_, ?_, ?_, ?_, ?_⟩
  · intro x hx
    simpa [deleteFileTabs, List.mem_filter] using hx
  · intro x hx hnot
    simp [deleteFileTabs, List.mem_filter, hx, hnot]
  · intro f hf hnot
    by_contra h
    exact hnot (by simp [deleteFileFiles, List.mem_filter, hf, h])
  · intro h
    simp [deleteFileActive, h]
  · intro h
    simp [deleteFileActive, h]

/-- C9 witness: deleting `src` in the scenario state drops the `a.js` tab
and clears the active file id. -/
theorem c9_witness :
    deleteFileActive filesD "s" "a" = "" ∧ deleteFileTabs filesD "s" ["a", "x"] = ["x"] :=
  ⟨(c9_deleteFile_tabs_active filesD "s" ["a", "x"] "a").2.2.2.1 (by decide), by decide⟩

/-- C4 (amended): terminal input is trimmed first; empty (or all-whitespace)
input produces no response at all, each of the five literal commands has the
behaviour below, and any other trimmed input echoes the command and logs
"Unknown command"; `!fix code` replaces every occurrence of `"var "` by
`"const "` in the active file's content. -/
theorem c4_terminal (input activeFileId : String) (files : List FileItem)
    (logs : List TerminalEntry) :
    (jsTrim input = "" → runTerminal input activeFileId files logs = (logs, files))
  ∧ (jsTrim input = "!help" → runTerminal input activeFileId files logs =
      (logs ++ [⟨LogLevel.info, "> !help"⟩,
        ⟨LogLevel.success, "!run !fix code !list !clear !help"⟩], files))
  ∧ (jsTrim input = "!run" → runTerminal input activeFileId files logs =
      (logs ++ [⟨LogLevel.info, "> !run"⟩, ⟨LogLevel.success, "Preview executed."⟩], files))
  ∧ (jsTrim input = "!fix code" → activeFileLookup files activeFileId = none →
      runTerminal input activeFileId files logs =
        (logs ++ [⟨LogLevel.info, "> !fix code"⟩, ⟨LogLevel.error, "No active file."⟩], files))
  ∧ (∀ af, jsTrim input = "!fix code" → activeFileLookup files activeFileId = some af →
      runTerminal input activeFileId files logs =
        (logs ++ [⟨LogLevel.info, "> !fix code"⟩,
          ⟨LogLevel.success, "Applied quick fix: var -> const"⟩],
         files.map (fun f =>
           if f.id = af.id then { f with content := replaceAll f.content "var " "const " }
           else f)))
  ∧ (jsTrim input = "!list" → runTerminal input activeFileId files logs =
      (logs ++ [⟨LogLevel.info, "> !list"⟩,
        ⟨LogLevel.info, String.intercalate ", " (files.map (fun f => f.name))⟩], files))
  ∧ (jsTrim input = "!clear" → runTerminal input activeFileId files logs = ([], files))
  ∧ (jsTrim input ≠ "" → jsTrim input ∉ terminalCommands →
      runTerminal input activeFileId files logs =
        (logs ++ [⟨LogLevel.info, "> " ++ jsTrim input⟩,
          ⟨LogLevel.error, "Unknown command"⟩], files)) := by
  refine ⟨?_, ?_, ?_, ?_, ?_, ?_, ?_, ?_⟩
  · intro h
    simp [runTerminal, h]
  · intro h
    simp [runTerminal, h]
  · intro h
    simp [runTerminal, h]
  · intro h hn
    simp [runTerminal, h, hn]
  · intro af h hs
    simp [runTerminal, h, hs]
  · intro h
    simp [runTerminal, h]
  · intro h
    simp [runTerminal, h]
  · intro h hc
    simp only [terminalCommands, List.mem_cons, List.not_mem_nil, or_false, not_or] at hc
    obtain ⟨h1, h2, h3, h4, h5⟩ := hc
    simp [runTerminal, h, h1, h2, h3, h4, h5]

/-- C4 counterexample: the empty input is not one of the five commands, yet
the terminal produces no response at all — in particular no
"unknown command" entry — contradicting the claim that every other input
yields one. -/
theorem c4_empty_input_no_response :
    "" ∉ terminalCommands ∧ runTerminal "" "F" filesC [] = ([], filesC) ∧
      ∀ e ∈ (runTerminal "" "F" filesC []).1, e.message ≠ "Unknown command" := by
  refine ⟨by decide, by decide, ?_⟩
  intro e he
  have h : (runTerminal "" "F" filesC []).1 = [] := by decide
  rw [h] at he
  exact absurd he (List.not_mem_nil e)

/-- C4 witness: `!fix code` on a file containing `"var x = 1"` leaves
`"const x = 1"`, with the echoed command and success entry logged. -/
theorem c4_witness :
    runTerminal "!fix code" "F" filesC [] =
      ([⟨LogLevel.info, "> !fix code"⟩,
        ⟨LogLevel.success, "Applied quick fix: var -> const"⟩],
       [{ id := "F", name := "main.js", kind := FileKind.file, content := "const x = 1",
          parentId := none }]) := by
  have h := (c4_terminal "!fix code" "F" filesC []).2.2.2.2.1
    { id := "F", name := "main.js", kind := FileKind.file, content := "var x = 1",
      parentId := none } (by decide) (by decide)
  exact h.trans (by decide)

/-! ### Document-collection SDK lemmas -/

lemma list_map_eq_self {α : Type} {l : List α} {f : α → α} (h : ∀ a ∈ l, f a = a) :
    l.map f = l := by
  induction l with
  | nil => rfl
  | cons a t ih =>
      rw [List.map_cons, h a (List.mem_cons_self a t),
        ih (fun b hb => h b (List.mem_cons_of_mem a hb))]

lemma getDocs_setCol (cols : Collections) (name : String) (docs : List JObj) :
    getDocs (setCol cols name docs) name = docs := by
  induction cols with
  | nil => simp [setCol, getDocs]
  | cons c rest ih =>
      by_cases h : c.1 = name
      · simp [setCol, h, getDocs]
      · simpa [setCol, h, getDocs] using ih

lemma getField_cons (p : String × JVal) (l : JObj) (k : String) :
    getField (p :: l) k = if p.1 = k then some p.2 else getField l k := by
  by_cases h : p.1 = k
  · rw [getField, List.find?_cons_of_pos _ (by simp [h]), if_pos h]
    rfl
  · rw [getField, List.find?_cons_of_neg _ (by simp [h]), if_neg h]
    rfl

lemma getField_eq_none_iff (data : JObj) (k : String) :
    getField data k = none ↔ ∀ p ∈ data, p.1 ≠ k := by
  simp [getField, Option.map_eq_none', List.find?_eq_none]

lemma getField_setKey (o : JObj) (k k₀ : String) (v : JVal) :
    getField (setKey o k₀ v) k = if k = k₀ then some v else getField o k := by
  induction o with
  | nil =>
      rw [setKey, getField_cons]
      by_cases h : k = k₀
      · rw [if_pos h.symm, if_pos h]
      · rw [if_neg (fun hh => h hh.symm), if_neg h]
  | cons p rest ih =>
      by_cases h₀ : p.1 = k₀
      · rw [setKey, if_pos h₀, getField_cons, getField_cons]
        by_cases h : k = k₀
        · rw [if_pos h.symm, if_pos h]
        · rw [if_neg (fun hh => h hh.symm), if_neg h,
            if_neg (fun hh : p.1 = k => h (hh ▸ h₀))]
      · rw [setKey, if_neg h₀, getField_cons, getField_cons, ih]
        by_cases hp : p.1 = k
        · rw [if_pos hp, if_neg (fun hk => h₀ (hp.trans hk)), if_pos hp]
        · rw [if_neg hp, if_neg hp]

lemma getField_spread_absent (base data : JObj) (k : String)
    (h : ∀ p ∈ data, p.1 ≠ k) :
    getField (spreadInto base data) k = getField base k := by
  induction data generalizing base with
  | nil => rfl
  | cons p rest ih =>
      have hp : p.1 ≠ k := h p (List.mem_cons_self p rest)
      have hrest : ∀ q ∈ rest, q.1 ≠ k := fun q hq => h q (List.mem_cons_of_mem p hq)
      have step : spreadInto base (p :: rest) = spreadInto (setKey base p.1 p.2) rest := rfl
      rw [step, ih (setKey base p.1 p.2) hrest, getField_setKey,
        if_neg (fun hk => hp hk.symm)]

lemma getField_spread_present (base data : JObj) (k : String) (v : JVal)
    (hnd : (data.map Prod.fst).Nodup) (h : getField data k = some v) :
    getField (spreadInto base data) k = some v := by
  induction data generalizing base with
  | nil => cases h
  | cons p rest ih =>
      rw [getField_cons] at h
      rw [List.map_cons, List.nodup_cons] at hnd
      obtain ⟨hnp, hndr⟩ := hnd
      have step : spreadInto base (p :: rest) = spreadInto (setKey base p.1 p.2) rest := rfl
      rw [step]
      by_cases hpk : p.1 = k
      · rw [if_pos hpk] at h
        have habs : ∀ q ∈ rest, q.1 ≠ k := by
          intro q hq hqk
          exact hnp (by rw [← hpk] at hqk; exact hqk ▸ List.mem_map_of_mem Prod.fst hq)
        rw [getField_spread_absent _ rest k habs, getField_setKey, if_pos hpk.symm]
        exact h
      · rw [if_neg hpk] at h
        exact ih (setKey base p.1 p.2) hndr h

lemma docId_mkDoc (newId : String) (data : JObj) (h : getField data "id" = none) :
    docId (mkDoc newId data) = some newId := by
  have habs : ∀ p ∈ data, p.1 ≠ "id" := (getField_eq_none_iff data "id").mp h
  have hid : getField (mkDoc newId data) "id" = some (JVal.vStr newId) := by
    rw [mkDoc, getField_spread_absent _ _ _ habs]
    rfl
  simp [docId, hid]

/-- C5: `updateDoc` and `deleteDoc` with an id absent from the collection
are silent no-ops — the collection's contents (hence its length) are
unchanged. -/
theorem c5_missing_id_noop (cols : Collections) (name i : String) (patch : JObj)
    (h : ∀ d ∈ getDocs cols name, docId d ≠ some i) :
    getDocs (updateDoc cols name i patch) name = getDocs cols name
  ∧ getDocs (deleteDoc cols name i) name = getDocs cols name := by
  constructor
  · rw [updateDoc, getDocs_setCol]
    refine list_map_eq_self (fun d hd => ?_)
    rw [if_neg]
    simp [h d hd]
  · rw [deleteDoc, getDocs_setCol]
    refine List.filter_eq_self.mpr (fun d hd => ?_)
    simp [h d hd]

/-- C5 witness: patching or deleting the unknown id `"zz"` leaves the
concrete collection untouched. -/
theorem c5_witness :
    getDocs (updateDoc cols₅ "notes" "zz" [("text", JVal.vStr "bye")]) "notes" =
        getDocs cols₅ "notes"
      ∧ getDocs (deleteDoc cols₅ "notes" "zz") "notes" = getDocs cols₅ "notes" :=
  c5_missing_id_noop cols₅ "notes" "zz" [("text", JVal.vStr "bye")] (by decide)

/-- C3 (amended): when the caller-supplied fields contain no `id` key, the
created record's id is the generated one; provided the generated id is fresh
(generation itself is unchecked `Math.random()`, modelled as the `newId`
argument), it differs from every existing id, and the record is appended to
the collection (which is created on first use), so a subsequent `getDocs`
includes it.  When the caller supplies an `id` field, the trailing spread
overrides the generated id (see `c3_caller_id_collides`); `addDoc` itself
returns no value. -/
theorem c3_addDoc_fresh (cols : Collections) (name newId : String) (data : JObj)
    (hid : getField data "id" = none)
    (hfresh : ∀ d ∈ getDocs cols name, docId d ≠ some newId) :
    getDocs (addDoc cols name newId data) name = getDocs cols name ++ [mkDoc newId data]
  ∧ docId (mkDoc newId data) = some newId
  ∧ ∀ d ∈ getDocs cols name, docId d ≠ docId (mkDoc newId data) := by
  have hmk := docId_mkDoc newId data hid
  refine ⟨by rw [addDoc, getDocs_setCol], hmk, fun d hd => ?_⟩
  rw [hmk]
  exact hfresh d hd

/-- C3 counterexample: even with a fresh generated id (`"fresh"` differs
from every id in the collection), a caller-supplied `id` field overrides it
(the spread comes after `id: uid()`), so the created record's id `"x"`
collides with the existing record — the claimed freshness fails. -/
theorem c3_caller_id_collides :
    (∀ d ∈ getDocs cols₃ "notes", docId d ≠ some "fresh")
      ∧ (getDocs (addDoc cols₃ "notes" "fresh" [("id", JVal.vStr "x")]) "notes").map docId =
          [some "x", some "x"]
      ∧ "fresh" ≠ "x" := by decide

/-- C3 witness: an id-free record is appended with the generated id, and the
spec's §8 scenario — `addDoc("notes", {text:"hi"})` then `getDocs` — yields
exactly one record carrying `text = "hi"`. -/
theorem c3_witness :
    docId (mkDoc "u9" [("text", JVal.vStr "hi")]) = some "u9"
      ∧ getDocs (addDoc cols₃ "notes" "u9" [("text", JVal.vStr "hi")]) "notes" =
          getDocs cols₃ "notes" ++ [mkDoc "u9" [("text", JVal.vStr "hi")]]
      ∧ (getDocs (addDoc [("notes", [])] "notes" "u9" [("text", JVal.vStr "hi")]) "notes").map
          (fun d => getField d "text") = [some (JVal.vStr "hi")] := by
  have h := c3_addDoc_fresh cols₃ "notes" "u9" [("text", JVal.vStr "hi")] (by decide) (by decide)
  exact ⟨h.2.1, h.1, by decide⟩

/-- C10 (amended): the created record's `name` is the literal `"doc"` when
the caller supplies no `name` key; when the caller does supply one, the
trailing spread overrides the `String(...)` coercion with the raw caller
value, so the field is string-valued only if the caller's value already is
(see `c10_name_not_coerced`). -/
theorem c10_addDoc_name (newId : String) (data : JObj)
    (hnd : (data.map Prod.fst).Nodup) :
    (getField data "name" = none →
        getField (mkDoc newId data) "name" = some (JVal.vStr "doc"))
  ∧ (∀ v, getField data "name" = some v → getField (mkDoc newId data) "name" = some v)
  ∧ (∀ cols name, getDocs (addDoc cols name newId data) name =
      getDocs cols name ++ [mkDoc newId data]) := by
  refine ⟨?_, ?_, fun cols name => by rw [addDoc, getDocs_setCol]⟩
  · intro h
    have habs := (getField_eq_none_iff data "name").mp h
    rw [mkDoc, getField_spread_absent _ _ _ habs, h]
    rfl
  · intro v h
    exact getField_spread_present _ data "name" v hnd h

/-- C10 counterexample: a caller-supplied `name: null` survives the spread
uncoerced, so the created record's `name` field is not string-valued. -/
theorem c10_name_not_coerced :
    getField (mkDoc "u1" [("name", JVal.vNull)]) "name" = some JVal.vNull
      ∧ ∀ s : String, JVal.vNull ≠ JVal.vStr s :=
  ⟨by decide, fun _ h => JVal.noConfusion h⟩

/-- C10 witness: without a caller `name` the record is named `"doc"`; a
caller-supplied string name is kept as-is. -/
theorem c10_witness :
    getField (mkDoc "u1" [("text", JVal.vStr "hi")]) "name" = some (JVal.vStr "doc")
      ∧ getField (mkDoc "u2" [("name", JVal.vStr "Nice")]) "name" =
          some (JVal.vStr "Nice") :=
  ⟨(c10_addDoc_name "u1" [("text", JVal.vStr "hi")] (by decide)).1 (by decide),
   (c10_addDoc_name "u2" [("name", JVal.vStr "Nice")] (by decide)).2.1 _ (by decide)⟩

/-! ### Cross-tab sync and workspace management -/

/-- C7 (amended): while authenticated, a local edit of the active file
publishes on the fixed-name channel a message whose keys are exactly
`type`, `projectId`, `fileId`, `content`, `actor`, carrying `"sync"`, the
workspace (project) id, the edited file's id, the new content, and the fixed
actor literal `"remote"`; no message is published as a guest. -/
theorem c7_sync_message (projectId : String) (files : List FileItem)
    (activeFileId v : String) (af : FileItem)
    (h : activeFileLookup files activeFileId = some af) :
    (editorOnChange AuthMode.user projectId files activeFileId v).2 =
        some (syncMessage projectId af.id v)
  ∧ (syncMessage projectId af.id v).map Prod.fst =
        ["type", "projectId", "fileId", "content", "actor"]
  ∧ getField (syncMessage projectId af.id v) "type" = some (JVal.vStr "sync")
  ∧ getField (syncMessage projectId af.id v) "projectId" = some (JVal.vStr projectId)
  ∧ getField (syncMessage projectId af.id v) "fileId" = some (JVal.vStr af.id)
  ∧ getField (syncMessage projectId af.id v) "content" = some (JVal.vStr v)
  ∧ getField (syncMessage projectId af.id v) "actor" = some (JVal.vStr "remote")
  ∧ (editorOnChange AuthMode.guest projectId files activeFileId v).2 = none := by
  refine ⟨?_, rfl, rfl, rfl, rfl, rfl, rfl, ?_⟩
  · simp [editorOnChange, h]
  · simp [editorOnChange, h]

/-- C7 counterexample: the message actually published for a concrete edit
has no `kind` and no `workspaceId` property — its keys are `type` and
`projectId` — so the claimed message shape
`{ kind: "sync", workspaceId, fileId, content, actor }` is not what the
sender emits. -/
theorem c7_message_lacks_kind :
    (editorOnChange AuthMode.user "P" filesC "F" "hi").2 = some (syncMessage "P" "F" "hi")
  ∧ getField (syncMessage "P" "F" "hi") "kind" = none
  ∧ getField (syncMessage "P" "F" "hi") "workspaceId" = none := by decide

/-- C7 witness: the amended statement at a concrete authenticated edit. -/
theorem c7_witness :
    (editorOnChange AuthMode.user "P" filesC "F" "hi").2 = some (syncMessage "P" "F" "hi")
      ∧ (syncMessage "P" "F" "hi").map Prod.fst =
          ["type", "projectId", "fileId", "content", "actor"] := by
  have h := c7_sync_message "P" filesC "F" "hi"
    { id := "F", name := "main.js", kind := FileKind.file, content := "var x = 1",
      parentId := none } (by decide)
  exact ⟨h.1, h.2.1⟩

lemma activeProjectOf_mem {projects : List Project} {activeId : String} {proj : Project}
    (h : activeProjectOf projects activeId = some proj) : proj ∈ projects := by
  unfold activeProjectOf at h
  cases hf : projects.find? (fun p => p.id == activeId) with
  | some q =>
      rw [hf] at h
      simp only [Option.orElse] at h
      cases h
      exact List.mem_of_find?_eq_some hf
  | none =>
      rw [hf] at h
      simp only [Option.orElse] at h
      cases projects with
      | nil => cases h
      | cons a rest =>
          simp only [List.head?] at h
          cases h
          exact List.mem_cons_self _ _

/-- C8: the workspace list is never emptied — deleting with a single
workspace present is a silent no-op, deleting with several (distinct-id)
workspaces leaves at least one, and loading a persisted state with an empty
workspace list substitutes the fresh default workspace. -/
theorem c8_workspace_nonempty (projects : List Project) (activeId : String)
    (fresh : Project) :
    (projects.length = 1 → deleteWorkspaceList projects activeId = projects)
  ∧ (projects ≠ [] → (projects.map (fun p => p.id)).Nodup →
      deleteWorkspaceList projects activeId ≠ [])
  ∧ loadProjects [] fresh = [fresh]
  ∧ (∀ stored : List Project, stored ≠ [] → loadProjects stored fresh = stored) := by
  refine ⟨fun h => by rw [deleteWorkspaceList, if_pos h], ?_, rfl, ?_⟩
  · intro hne hnd
    rw [deleteWorkspaceList]
    by_cases h1 : projects.length = 1
    · rw [if_pos h1]
      exact hne
    · rw [if_neg h1]
      cases hap : activeProjectOf projects activeId with
      | none => exact hne
      | some proj =>
          show projects.filter (fun p => !decide (p.id = proj.id)) ≠ []
          cases projects with
          | nil => exact absurd rfl hne
          | cons a rest =>
              cases rest with
              | nil => exact absurd rfl h1
              | cons b rest2 =>
                  by_cases hpa : proj.id = a.id
                  · have hab : a.id ≠ b.id := by
                      have hx := (List.nodup_cons.mp hnd).1
                      intro he
                      apply hx
                      show a.id ∈ List.map (fun p => p.id) (b :: rest2)
                      simp only [List.map_cons, List.mem_cons]
                      exact Or.inl he
                    apply List.ne_nil_of_mem (a := b)
                    refine List.mem_filter.mpr
                      ⟨List.mem_cons_of_mem a (List.mem_cons_self b rest2), ?_⟩
                    simp only [Bool.not_eq_true', decide_eq_false_iff_not]
                    intro he
                    exact hab (he.trans hpa).symm
                  · apply List.ne_nil_of_mem (a := a)
                    refine List.mem_filter.mpr ⟨List.mem_cons_self a _, ?_⟩
                    simp only [Bool.not_eq_true', decide_eq_false_iff_not]
                    intro he
                    exact hpa he.symm
  · intro stored hs
    rw [loadProjects, if_pos (fun h0 => hs (List.length_eq_zero.mp h0))]

/-- C8 witness: with a single workspace the delete button is a no-op; with
two distinct workspaces one survives; an empty persisted list loads as the
fresh default. -/
theorem c8_witness :
    deleteWorkspaceList [projA] "a0" = [projA]
      ∧ deleteWorkspaceList [projA, projB] "a0" ≠ []
      ∧ loadProjects [] projA = [projA]
      ∧ deleteWorkspaceList [projA, projB] "a0" = [projB] := by
  have h1 := (c8_workspace_nonempty [projA] "a0" projA).1 (by decide)
  have h2 := (c8_workspace_nonempty [projA, projB] "a0" projA).2.1 (by simp) (by decide)
  have h3 := (c8_workspace_nonempty [] "zz" projA).2.2.1
  exact ⟨h1, h2, h3, by decide⟩

/-! ### listTree ordering -/

lemma localeCmp_le (s t : String) : localeCmp s t ≤ 0 ↔ s ≤ t := by
  rw [localeCmp]
  by_cases h1 : s < t
  · simp only [if_pos h1]
    constructor
    · intro _
      exact le_of_lt h1
    · intro _
      norm_num
  · rw [if_neg h1]
    by_cases h2 : s = t
    · simp [h2]
    · rw [if_neg h2]
      constructor
      · intro h
        norm_num at h
      · intro h
        rcases lt_or_eq_of_le h with h' | h'
        · exact absurd h' h1
        · exact absurd h' h2

lemma fileLe_iff (a b : FileItem) :
    fileLe a b = true ↔
      fileRank a < fileRank b ∨ (fileRank a = fileRank b ∧ a.name ≤ b.name) := by
  rw [fileLe, decide_eq_true_eq]
  show (if fileRank a - fileRank b ≠ 0 then fileRank a - fileRank b
        else localeCmp a.name b.name) ≤ 0 ↔ _
  by_cases hd : fileRank a - fileRank b ≠ 0
  · rw [if_pos hd]
    constructor
    · intro h
      exact Or.inl (by omega)
    · rintro (h | ⟨he, -⟩)
      · omega
      · omega
  · rw [if_neg hd]
    push_neg at hd
    rw [localeCmp_le]
    constructor
    · intro h
      exact Or.inr ⟨by omega, h⟩
    · rintro (h | ⟨-, h⟩)
      · omega
      · exact h

lemma fileLe_total (a b : FileItem) : (fileLe a b || fileLe b a) = true := by
  simp only [Bool.or_eq_true, fileLe_iff]
  rcases lt_trichotomy (fileRank a) (fileRank b) with h | h | h
  · exact Or.inl (Or.inl h)
  · rcases le_total a.name b.name with hn | hn
    · exact Or.inl (Or.inr ⟨h, hn⟩)
    · exact Or.inr (Or.inr ⟨h.symm, hn⟩)
  · exact Or.inr (Or.inl h)

lemma fileLe_trans (a b c : FileItem) :
    fileLe a b = true → fileLe b c = true → fileLe a c = true := by
  simp only [fileLe_iff]
  rintro (h1 | ⟨e1, n1⟩) (h2 | ⟨e2, n2⟩)
  · exact Or.inl (lt_trans h1 h2)
  · exact Or.inl (by omega)
  · exact Or.inl (by omega)
  · exact Or.inr ⟨e1.trans e2, le_trans n1 n2⟩

/-- C6: `listTree` is a pure function of the state — two calls without an
intervening mutation are literally the same value — its output is the
flattening of the sorted sibling groups, and within each sibling group
folders (`fileRank` 0) come before files (`fileRank` 1) with each kind
ordered lexicographically by name. -/
theorem c6_listTree_pure_sorted (files : List FileItem) (search : String)
    (p : Option String) :
    listTree files search p = listTree files search p
  ∧ List.Pairwise
      (fun a b => fileRank a < fileRank b ∨ (fileRank a = fileRank b ∧ a.name ≤ b.name))
      (sortSibs files search p)
  ∧ listTree files search p =
      (sortSibs files search p).flatMap (fun f =>
        { toFileItem := f, label := labelOf 0 f } ::
          (if f.kind == FileKind.folder then
            listTreeAux files search files.length (some f.id) 1
          else [])) := by
  refine ⟨rfl, ?_, rfl⟩
  have hs : List.Pairwise (fun a b => fileLe a b = true) (sortSibs files search p) :=
    List.sorted_mergeSort fileLe_trans fileLe_total
      ((searchFilter files search).filter (fun f => f.parentId == p))
  exact hs.imp (fun hab => (fileLe_iff _ _).mp hab)

end CodeFlow
